import Mathlib

/-!
Verification of `src/bashlex/data_tools.py` (tellina_learning_module).

The Python module is shallowly embedded: pure functions become Lean
functions; the in-place mutation of the accumulator list in `ast2list`
is modelled by threading the list; `print` side effects are modelled as
an explicit log component of the result; a Python `AttributeError` on
`None` is modelled with `Except`; external collaborators (the lemmatizer,
the spell corrector, the gazetteer tables and the `re` library) are
abstracted as function parameters, as the spec declares them external.
-/

namespace Tellina

/-- A syntax-tree node as used by `ast2list`: its linearized `symbol`
and its ordered children (`node.symbol`, `node.children` in the source). -/
inductive Tree where
| node : String → List Tree → Tree

/-- The `symbol` attribute of a node. -/
def Tree.symbol : Tree → String
| .node s _ => s

/-- The `children` attribute of a node. -/
def Tree.children : Tree → List Tree
| .node _ cs => cs

mutual
/-- The `order == 'dfs'` branch of `ast2list` acting on a non-`None`
accumulator: append `node.symbol`, recurse into the children in order,
then append the terminator `"<NO_EXPAND>"`.  The Python in-place
`list.append` is modelled by returning the extended list. -/
def ast2listDfs : Tree → List String → List String
| Tree.node s cs, lst => ast2listDfsChildren cs (lst ++ [s]) ++ ["<NO_EXPAND>"]

/-- The `for child in node.children: ast2list(child, order, list)` loop
of `ast2list`, threading the mutated accumulator. -/
def ast2listDfsChildren : List Tree → List String → List String
| [], lst => lst
| c :: cs, lst => ast2listDfsChildren cs (ast2listDfs c lst)
end

/-- Embedding of `ast2list(node, order, list)`.  The accumulator default
`list=None` is an `Option`; calling `.append` on `None` raises an
`AttributeError`, modelled as the `Except.error` case.  For any order
other than `'dfs'` the function returns the accumulator untouched. -/
def ast2list (node : Tree) (order : String) (lst : Option (List String)) :
    Except String (Option (List String)) :=
  if order = "dfs" then
    match lst with
    | none => Except.error "AttributeError: NoneType object has no attribute append"
    | some l => Except.ok (some (ast2listDfs node l))
  else Except.ok lst

mutual
/-- Pre-order symbol sequence of a tree (specification vocabulary for the
claims about `ast2list`). -/
def preorder : Tree → List String
| .node s cs => s :: preorderList cs

/-- Pre-order symbol sequence of a forest. -/
def preorderList : List Tree → List String
| [] => []
| c :: cs => preorder c ++ preorderList cs
end

mutual
/-- Pre-order per-node child counts of a tree (specification vocabulary). -/
def childCounts : Tree → List Nat
| .node _ cs => cs.length :: childCountsList cs

/-- Pre-order per-node child counts of a forest. -/
def childCountsList : List Tree → List Nat
| [] => []
| c :: cs => childCounts c ++ childCountsList cs
end

mutual
theorem ast2listDfs_append : ∀ (t : Tree) (l : List String),
    ast2listDfs t l = l ++ ast2listDfs t []
| Tree.node s cs, l => by
  rw [ast2listDfs, ast2listDfs,
    ast2listDfsChildren_append cs (l ++ [s]), ast2listDfsChildren_append cs ([] ++ [s])]
  simp

theorem ast2listDfsChildren_append : ∀ (cs : List Tree) (l : List String),
    ast2listDfsChildren cs l = l ++ ast2listDfsChildren cs []
| [], l => by simp [ast2listDfsChildren]
| c :: cs, l => by
  rw [ast2listDfsChildren, ast2listDfsChildren,
    ast2listDfsChildren_append cs (ast2listDfs c l),
    ast2listDfsChildren_append cs (ast2listDfs c []),
    ast2listDfs_append c l]
  simp
end

theorem ast2listDfs_node (s : String) (cs : List Tree) :
    ast2listDfs (Tree.node s cs) [] =
      s :: ast2listDfsChildren cs [] ++ ["<NO_EXPAND>"] := by
  rw [ast2listDfs, ast2listDfsChildren_append cs ([] ++ [s])]
  simp

theorem ast2listDfsChildren_cons (c : Tree) (cs : List Tree) :
    ast2listDfsChildren (c :: cs) [] =
      ast2listDfs c [] ++ ast2listDfsChildren cs [] := by
  rw [ast2listDfsChildren, ast2listDfsChildren_append cs (ast2listDfs c []),
    ast2listDfs_append c []]

example : ast2listDfs (Tree.node "a" [Tree.node "b" [], Tree.node "c" []]) [] =
    ["a", "b", "<NO_EXPAND>", "c", "<NO_EXPAND>", "<NO_EXPAND>"] := by decide

theorem ast2listDfsChildren_eq_flatten : ∀ (cs : List Tree),
    ast2listDfsChildren cs [] = (cs.map fun c => ast2listDfs c []).flatten
| [] => by simp [ast2listDfsChildren]
| c :: cs => by
  rw [ast2listDfsChildren_cons, ast2listDfsChildren_eq_flatten cs]
  simp

theorem mem_preorder_node (x s : String) (cs : List Tree) :
    x ∈ preorder (Tree.node s cs) ↔ x = s ∨ x ∈ preorderList cs := by
  rw [preorder]
  simp

theorem mem_preorderList_cons (x : String) (c : Tree) (cs : List Tree) :
    x ∈ preorderList (c :: cs) ↔ x ∈ preorder c ∨ x ∈ preorderList cs := by
  rw [preorderList]
  simp

mutual
theorem lin_stats : ∀ (t : Tree), "<NO_EXPAND>" ∉ preorder t →
    (ast2listDfs t []).filter (fun x => x != "<NO_EXPAND>") = preorder t ∧
    (ast2listDfs t []).count "<NO_EXPAND>" = (preorder t).length ∧
    (ast2listDfs t []).length = 2 * (preorder t).length
| Tree.node s cs, h => by
  rw [mem_preorder_node] at h
  push_neg at h
  obtain ⟨hs, hcs⟩ := h
  obtain ⟨h1, h2, h3⟩ := linL_stats cs hcs
  rw [ast2listDfs_node, preorder]
  refine ⟨?_, ?_, ?_⟩
  · simp [List.filter_append, h1, Ne.symm hs]
  · simp [List.count_cons, List.count_append, h2, hs, Ne.symm hs]
  · simp
    omega

theorem linL_stats : ∀ (cs : List Tree), "<NO_EXPAND>" ∉ preorderList cs →
    (ast2listDfsChildren cs []).filter (fun x => x != "<NO_EXPAND>") = preorderList cs ∧
    (ast2listDfsChildren cs []).count "<NO_EXPAND>" = (preorderList cs).length ∧
    (ast2listDfsChildren cs []).length = 2 * (preorderList cs).length
| [], _ => by simp [ast2listDfsChildren, preorderList]
| c :: cs, h => by
  rw [mem_preorderList_cons] at h
  push_neg at h
  obtain ⟨hc, hcs⟩ := h
  obtain ⟨h1, h2, h3⟩ := lin_stats c hc
  obtain ⟨h4, h5, h6⟩ := linL_stats cs hcs
  rw [ast2listDfsChildren_cons, preorderList]
  refine ⟨?_, ?_, ?_⟩
  · simp [List.filter_append, h1, h4]
  · simp [List.count_append, h2, h5]
  · simp
    omega
end

theorem length_filter_beq_add_length_filter_bne (a : String) (l : List String) :
    (l.filter (fun x => x == a)).length + (l.filter (fun x => x != a)).length = l.length := by
  induction l with
  | nil => simp
  | cons x xs ih =>
    by_cases h : x = a
    · subst h
      simp [List.filter_cons]
      omega
    · simp [List.filter_cons, h]
      omega

/-- C2: `ast2list(T, 'dfs', [])` is a pre-order traversal — each node's
symbol is emitted before its children's subtrees and exactly one
`"<NO_EXPAND>"` terminator is appended after the children of each node —
and in the result the number of terminator symbols equals the number of
non-terminator symbols (one per node), provided the terminator is not
itself a node symbol of `T` (the spec's disjoint-alphabet invariant). -/
theorem c2_ast2list_dfs_preorder_with_terminators (t : Tree)
    (h : "<NO_EXPAND>" ∉ preorder t) :
    (∀ (s : String) (cs : List Tree),
        ast2list (Tree.node s cs) "dfs" (some []) =
          Except.ok (some
            (s :: (cs.map fun c => ast2listDfs c []).flatten ++ ["<NO_EXPAND>"]))) ∧
    ∃ r, ast2list t "dfs" (some []) = Except.ok (some r) ∧
      r.filter (fun x => x != "<NO_EXPAND>") = preorder t ∧
      r.count "<NO_EXPAND>" = (preorder t).length ∧
      (r.filter (fun x => x == "<NO_EXPAND>")).length =
        (r.filter (fun x => x != "<NO_EXPAND>")).length := by
  constructor
  · intro s cs
    simp [ast2list]
    rw [ast2listDfs_node, ast2listDfsChildren_eq_flatten]
    simp
  · obtain ⟨h1, h2, h3⟩ := lin_stats t h
    refine ⟨ast2listDfs t [], by simp [ast2list], h1, h2, ?_⟩
    have h4 := length_filter_beq_add_length_filter_bne "<NO_EXPAND>" (ast2listDfs t [])
    rw [h1] at h4 ⊢
    omega

/-- A small concrete tree used to instantiate the hypotheses of the
claim theorems. -/
def sampleTree : Tree := Tree.node "find" [Tree.node "-name" [], Tree.node "X" []]

theorem c2_ast2list_dfs_preorder_with_terminators_witness :
    ("<NO_EXPAND>" ∉ preorder sampleTree) ∧
    ((∀ (s : String) (cs : List Tree),
        ast2list (Tree.node s cs) "dfs" (some []) =
          Except.ok (some
            (s :: (cs.map fun c => ast2listDfs c []).flatten ++ ["<NO_EXPAND>"]))) ∧
    ∃ r, ast2list sampleTree "dfs" (some []) = Except.ok (some r) ∧
      r.filter (fun x => x != "<NO_EXPAND>") = preorder sampleTree ∧
      r.count "<NO_EXPAND>" = (preorder sampleTree).length ∧
      (r.filter (fun x => x == "<NO_EXPAND>")).length =
        (r.filter (fun x => x != "<NO_EXPAND>")).length) :=
  ⟨by decide, c2_ast2list_dfs_preorder_with_terminators sampleTree (by decide)⟩

/-- C9: `ast2list` extends the caller-supplied accumulator in place —
the value returned for accumulator `l` is `l` itself extended with the
linearization — and calling it with order `'dfs'` while the accumulator
is left at its default `None` raises an `AttributeError` instead of
returning a sequence. -/
theorem c9_ast2list_mutates_accumulator_none_raises (t : Tree) (l : List String) :
    ast2list t "dfs" (some l) = Except.ok (some (l ++ ast2listDfs t [])) ∧
    ast2list t "dfs" none =
      Except.error "AttributeError: NoneType object has no attribute append" := by
  refine ⟨?_, by simp [ast2list]⟩
  simp [ast2list]
  exact ast2listDfs_append t l

/-- C10: for any order other than `'dfs'`, `ast2list` performs no
traversal: it returns the given accumulator unchanged. -/
theorem c10_ast2list_other_order_frame (t : Tree) (order : String)
    (lst : Option (List String)) (h : order ≠ "dfs") :
    ast2list t order lst = Except.ok lst := by
  simp [ast2list, h]

/-- A symbol that stops expansion during delinearization: the reserved
terminator, or the padding symbol `"<PAD>"` that the spec says is treated
as terminator-equivalent (legacy compatibility). -/
def isTermTok (s : String) : Bool := s == "<NO_EXPAND>" || s == "<PAD>"

/-- Modelled from the spec: the sibling-sequence reader of the
delinearizer `normalizer.list_to_ast`, whose code is not part of the
shown source.  Per spec §4.4 it consumes the sequence left to right:
a terminator-equivalent symbol ends the current level; any other symbol
starts a node whose children are read recursively until a terminator is
consumed; exhausted input terminates the current node (truncated
sequences are tolerated).  The returned remainder carries a length bound
used only for termination. -/
def readChildrenS : (l : List String) → List Tree × { r : List String // r.length ≤ l.length }
| [] => ([], ⟨[], Nat.le_refl 0⟩)
| s :: rest =>
  if isTermTok s then ([], ⟨rest, Nat.le_succ rest.length⟩)
  else
    match readChildrenS rest with
    | (cs, ⟨r1, h1⟩) =>
      match readChildrenS r1 with
      | (sibs, ⟨r2, h2⟩) =>
        (Tree.node s cs :: sibs,
         ⟨r2, Nat.le_trans h2 (Nat.le_trans h1 (Nat.le_succ rest.length))⟩)
termination_by l => l.length
decreasing_by
· simp
· simp
  omega

/-- The sibling-sequence reader, with the length bound erased. -/
def readChildren (l : List String) : List Tree × List String :=
  ((readChildrenS l).1, (readChildrenS l).2.val)

theorem readChildren_term (s : String) (rest : List String) (h : isTermTok s = true) :
    readChildren (s :: rest) = ([], rest) := by
  simp [readChildren, readChildrenS, h]

theorem readChildren_cons (s : String) (rest : List String) (h : isTermTok s = false) :
    readChildren (s :: rest) =
      (Tree.node s (readChildren rest).1 :: (readChildren (readChildren rest).2).1,
       (readChildren (readChildren rest).2).2) := by
  rcases hr1 : readChildrenS rest with ⟨cs, ⟨r1, h1⟩⟩
  rcases hr2 : readChildrenS r1 with ⟨sibs, ⟨r2, h2⟩⟩
  simp [readChildren, readChildrenS, h, hr1, hr2]

theorem readChildren_roundtrip : ∀ (ts : List Tree),
    (∀ x ∈ preorderList ts, isTermTok x = false) → ∀ (rest : List String),
    readChildren (ast2listDfsChildren ts [] ++ "<NO_EXPAND>" :: rest) = (ts, rest)
| [], _, rest => by
  rw [ast2listDfsChildren]
  simp only [List.nil_append]
  exact readChildren_term _ _ (by decide)
| (Tree.node s cc) :: cs, h, rest => by
  have hs : isTermTok s = false := h s (by simp [mem_preorderList_cons, mem_preorder_node])
  have hcc : ∀ x ∈ preorderList cc, isTermTok x = false := fun x hx =>
    h x (by simp [mem_preorderList_cons, mem_preorder_node, hx])
  have hcs : ∀ x ∈ preorderList cs, isTermTok x = false := fun x hx =>
    h x (by simp [mem_preorderList_cons, hx])
  rw [ast2listDfsChildren_cons, ast2listDfs_node]
  have harr :
      ((s :: ast2listDfsChildren cc [] ++ ["<NO_EXPAND>"]) ++ ast2listDfsChildren cs []) ++
          "<NO_EXPAND>" :: rest =
        s :: (ast2listDfsChildren cc [] ++ "<NO_EXPAND>" ::
          (ast2listDfsChildren cs [] ++ "<NO_EXPAND>" :: rest)) := by
    simp
  rw [harr, readChildren_cons s _ hs,
    readChildren_roundtrip cc hcc (ast2listDfsChildren cs [] ++ "<NO_EXPAND>" :: rest)]
  simp only []
  rw [readChildren_roundtrip cs hcs rest]
termination_by ts => sizeOf ts

/-- Modelled from the spec: `normalizer.list_to_ast` (the delinearizer),
whose code is not part of the shown source.  It reads one symbol: a
terminator-equivalent symbol (or an empty sequence) yields no tree;
otherwise it builds the root node with that symbol and attaches children
read until a terminator is consumed.  The spec specifies only the
`'dfs'` order. -/
def list_to_ast (l : List String) (order : String) : Option Tree :=
  if order = "dfs" then
    match l with
    | [] => none
    | s :: rest => if isTermTok s then none else some (Tree.node s (readChildren rest).1)
  else none

/-- Embedding of `list2ast(list, order)`: delegates to
`normalizer.list_to_ast`. -/
def list2ast (l : List String) (order : String) : Option Tree := list_to_ast l order

/-- C1: for every syntax tree `T` whose node symbols avoid the reserved
terminator and padding symbols (the spec's disjoint-alphabet invariant),
`list2ast (ast2list T 'dfs' []) 'dfs'` yields a tree whose pre-order
symbol sequence and per-node child counts are identical to those of `T`. -/
theorem c1_list2ast_ast2list_roundtrip (t : Tree)
    (h : ∀ x ∈ preorder t, isTermTok x = false) :
    ∃ r t', ast2list t "dfs" (some []) = Except.ok (some r) ∧
      list2ast r "dfs" = some t' ∧
      preorder t' = preorder t ∧ childCounts t' = childCounts t := by
  obtain ⟨s, cs⟩ := t
  refine ⟨ast2listDfs (Tree.node s cs) [], Tree.node s cs, by simp [ast2list], ?_, rfl, rfl⟩
  have hs : isTermTok s = false := h s (by simp [mem_preorder_node])
  have hcs : ∀ x ∈ preorderList cs, isTermTok x = false := fun x hx =>
    h x (by simp [mem_preorder_node, hx])
  have harr : (s :: ast2listDfsChildren cs []) ++ ["<NO_EXPAND>"] =
      s :: (ast2listDfsChildren cs [] ++ "<NO_EXPAND>" :: []) := by simp
  rw [list2ast, ast2listDfs_node, harr]
  simp only [list_to_ast, if_pos rfl, hs, Bool.false_eq_true, if_false]
  rw [readChildren_roundtrip cs hcs []]
  simp

theorem c1_list2ast_ast2list_roundtrip_witness :
    (∀ x ∈ preorder sampleTree, isTermTok x = false) ∧
    (∃ r t', ast2list sampleTree "dfs" (some []) = Except.ok (some r) ∧
      list2ast r "dfs" = some t' ∧
      preorder t' = preorder sampleTree ∧ childCounts t' = childCounts sampleTree) :=
  ⟨by decide, c1_list2ast_ast2list_roundtrip sampleTree (by decide)⟩

theorem c10_ast2list_other_order_frame_witness :
    (("bfs" : String) ≠ "dfs") ∧
    ast2list sampleTree "bfs" (some ["x"]) = Except.ok (some ["x"]) :=
  ⟨by decide, c10_ast2list_other_order_frame sampleTree "bfs" (some ["x"]) (by decide)⟩

/-- The external collaborators of `basic_tokenizer`, abstracted as
functions: the WordNet lemmatizer, `spell_check.correction`, the
gazetteer tables (`ENGLISH_STOPWORDS`, `word2num`), the
`bash.is_english_word` predicate, and the Python `re` operations on the
whole sentence (the two anchored quote substitutions of lines 58-59,
the punctuation collapses of lines 61-64, the contraction escapes of
lines 66-70, and the quote-respecting `findall` of line 72).  The spec
declares all of these external to the core. -/
structure Externals where
  lemmatize : String → String
  correction : String → String
  isStopword : String → Bool
  word2num : String → Option Nat
  isEnglishWord : String → Bool
  subAnchor : String → String
  subPunct : String → String
  subContract : String → String
  findallQuoted : String → List String

/-- The keyword flags of `basic_tokenizer`. -/
structure Config where
  lower_case : Bool
  normalize_digits : Bool
  normalize_long_pattern : Bool
  lemmatization : Bool
  remove_stop_words : Bool

/-- Python `str.isalpha()` (ASCII approximation): non-empty and all
characters alphabetic. -/
def pyIsAlpha (w : String) : Bool := !w.toList.isEmpty && w.toList.all (fun c => c.isAlpha)

/-- Python `str.startswith(p)` over characters. -/
def pyStartsWith (w p : String) : Bool := List.isPrefixOf p.toList w.toList

/-- Python `str.endswith(p)` over characters. -/
def pyEndsWith (w p : String) : Bool := List.isSuffixOf p.toList w.toList

/-- Python `c in s` for a single character. -/
def pyContainsChar (w : String) (c : Char) : Bool := w.toList.contains c

/-- Python `str.lower()` (ASCII approximation). -/
def pyLower (w : String) : String := String.mk (w.toList.map Char.toLower)

/-- Python slicing `w[n:]` over characters. -/
def pyDrop (w : String) (n : Nat) : String := String.mk (w.toList.drop n)

/-- Python slicing `w[:-n]` over characters. -/
def pyDropRight (w : String) (n : Nat) : String :=
  String.mk (w.toList.take (w.toList.length - n))

/-- Python `str.strip()`: drop leading and trailing whitespace. -/
def pyStrip (w : String) : String :=
  String.mk
    (((w.toList.dropWhile (fun c => c.isWhitespace)).reverse.dropWhile
      (fun c => c.isWhitespace)).reverse)

/-- Python `str.islower()` (ASCII approximation): no upper-case character
and at least one lower-case (cased) character. -/
def pyIsLower (s : String) : Bool :=
  s.toList.all (fun c => !c.isUpper) && s.toList.any (fun c => c.isLower)

/-- Python `word[0].isupper()`. -/
def headUpper (w : String) : Bool :=
  match w.toList with
  | [] => false
  | c :: _ => c.isUpper

/-- Modelled from the spec: `bash._NUM`, the fixed numeral placeholder
(the `bash` module is repo code not under `src/`; its literal value is
unspecified by the spec, only its fixedness matters). -/
def NUM : String := "_NUM"

/-- Modelled from the spec: `bash._LONG_PATTERN`, the fixed long-pattern
placeholder (the `bash` module is repo code not under `src/`). -/
def LONG_PATTERN : String := "_LONG_PATTERN"

/-- Modelled from the spec: the substitution `re.sub(bash._DIGIT_RE,
bash._NUM, word)` (the pattern lives in the `bash` module, not under
`src/`).  Per spec 4.1 (h) and the digit-placeholder test, each maximal
run of digits in the token is replaced by the numeral placeholder. -/
def digitSubChars : List Char → Bool → String
| [], _ => ""
| c :: rest, inRun =>
  if c.isDigit then (if inRun then "" else NUM) ++ digitSubChars rest true
  else String.singleton c ++ digitSubChars rest false

/-- Replace every maximal digit run of `w` with the numeral placeholder. -/
def digitSub (w : String) : String := digitSubChars w.toList false

example : digitSub "dir1" = "dir_NUM" := by decide
example : digitSub "123abc45" = "_NUMabc_NUM" := by decide

/-- Lines 79-81: lower-case a titlecase word (initial capital, rest
lower-case) when `lower_case` is set. -/
def stageCase (cfg : Config) (w : String) : String :=
  if cfg.lower_case && decide (1 < w.length) && headUpper w && pyIsLower (pyDrop w 1)
  then pyLower w else w

/-- Lines 84-85: optional lemmatization. -/
def stageLemm (E : Externals) (cfg : Config) (w : String) : String :=
  if cfg.lemmatization then E.lemmatize w else w

/-- Lines 88-92: spell correction of purely alphabetic tokens, with the
before/after pair surfaced as a log entry when the token changes.  Note
the source guards this stage only by `word.isalpha()`, not by any flag. -/
def stageSpell (E : Externals) (w : String) : String × List String :=
  if pyIsAlpha w then
    let c := E.correction w
    (c, if c ≠ w then ["spell correction: " ++ w ++ " -> " ++ c] else [])
  else (w, [])

/-- Lines 100-101: numeral-word substitution via `gazetteer.word2num`. -/
def stageNum (E : Externals) (w : String) : String :=
  match E.word2num w with
  | some n => toString n
  | none => w

/-- Lines 104-109: force-quote a token the gazetteer does not recognize
as an English/shell word. -/
def stageQuote (E : Externals) (w : String) : String :=
  if E.isEnglishWord w then w
  else
    let w1 := if pyStartsWith w "\"" then w else "\"" ++ w
    if pyEndsWith w1 "\"" then w1 else w1 ++ "\""

/-- Lines 113-120: long-pattern handling.  A token with a space and more
than 3 characters is asserted to be double-quoted; the `AssertionError`
is caught and surfaced as the `Quotation Error` diagnostic (modelled as
a log entry), after which processing continues; when
`normalize_long_pattern` is set the whole token is replaced by
`bash._LONG_PATTERN`. -/
def stageLong (cfg : Config) (sentence w : String) : String × List String :=
  if pyContainsChar w ' ' && decide (3 < w.length) then
    let log := if pyStartsWith w "\"" && pyEndsWith w "\"" then []
               else ["Quotation Error: space inside word " ++ sentence]
    (if cfg.normalize_long_pattern then LONG_PATTERN else w, log)
  else (w, [])

/-- Lines 123-124: digit normalization, skipped when the flag is off or
the token begins with `-`. -/
def stageDigit (cfg : Config) (w : String) : String :=
  if cfg.normalize_digits && !pyStartsWith w "-" then digitSub w else w

/-- Lines 127-131: possessive splitting. -/
def stageApos (w : String) : List String :=
  if pyEndsWith w "'s" then [pyDropRight w 2, "'s"] else [w]

/-- The body of the per-word loop of `basic_tokenizer` (lines 75-131)
for one word: returns the tokens appended to `normalized_words` and the
log entries printed.  `sentence` is the (already preprocessed) sentence
used in the quotation diagnostic. -/
def processWord (E : Externals) (cfg : Config) (sentence w0 : String) :
    List String × List String :=
  let w1 := stageLemm E cfg (stageCase cfg (pyStrip w0))
  let sp := stageSpell E w1
  if cfg.remove_stop_words && E.isStopword sp.1 then ([], sp.2)
  else
    let w3 := stageNum E sp.1
    let w4 := stageQuote E w3
    let lg := stageLong cfg sentence w4
    let w5 := stageDigit cfg lg.1
    (stageApos w5, sp.2 ++ lg.2)

/-- Lines 44-72: the sentence-level preprocessing of `basic_tokenizer` —
the quote-glyph and parenthesis `replace` chain, then the anchored-quote,
punctuation and contraction regex substitutions (external `re` calls,
abstracted in `Externals`). -/
def preprocessSentence (E : Externals) (sentence : String) : String :=
  E.subContract (E.subPunct (E.subAnchor
    ((((((((sentence.replace "`'" "\"").replace "``" "\"").replace "''" "\"").replace
      " '" " \"").replace "' " "\" ").replace "`" "\"").replace "(" "( ").replace
      ")" " )")))

/-- Embedding of `basic_tokenizer`: preprocess the sentence, split it
with the quote-respecting regex, then run the per-word pipeline; the
first component is the returned `normalized_words`, the second collects
the printed diagnostics. -/
def basic_tokenizer (E : Externals) (cfg : Config) (sentence : String) :
    List String × List String :=
  let s := preprocessSentence E sentence
  (E.findallQuoted s).foldl
    (fun acc w =>
      let r := processWord E cfg s w
      (acc.1 ++ r.1, acc.2 ++ r.2)) ([], [])

/-- The processed word as it stands when the long-pattern stage (g)
examines it: after strip, case folding, lemmatization, spell correction,
numeral substitution and force-quoting. -/
def wordBeforeLong (E : Externals) (cfg : Config) (w0 : String) : String :=
  stageQuote E (stageNum E (stageSpell E (stageLemm E cfg (stageCase cfg (pyStrip w0)))).1)

/-- Whether the word is dropped by the stopword stage (d). -/
def droppedAsStop (E : Externals) (cfg : Config) (w0 : String) : Bool :=
  cfg.remove_stop_words && E.isStopword (stageSpell E (stageLemm E cfg (stageCase cfg (pyStrip w0)))).1

theorem processWord_not_stopped (E : Externals) (cfg : Config) (sentence w0 : String)
    (h : droppedAsStop E cfg w0 = false) :
    processWord E cfg sentence w0 =
      (stageApos (stageDigit cfg (stageLong cfg sentence (wordBeforeLong E cfg w0)).1),
       (stageSpell E (stageLemm E cfg (stageCase cfg (pyStrip w0)))).2 ++
         (stageLong cfg sentence (wordBeforeLong E cfg w0)).2) := by
  rw [droppedAsStop] at h
  simp [processWord, wordBeforeLong, h]

/-- Sample externals used to instantiate claim theorems: identity-like
collaborators (no lemmatization change, identity corrector, empty
stopword set, no number words, everything recognized as an English word,
identity regex substitutions, whole-sentence split). -/
def EId : Externals :=
  ⟨fun w => w, fun w => w, fun _ => false, fun _ => none, fun _ => true,
   fun s => s, fun s => s, fun s => s, fun s => [s]⟩

/-- The default flag setting of `basic_tokenizer` (every flag `True`). -/
def cfgAll : Config := ⟨true, true, true, true, true⟩

/-- C3: when the word examined by the long-pattern stage contains a
space and is longer than 3 characters, a missing double-quote wrapping
is reported as the `Quotation Error` diagnostic while processing
continues and a token list is still produced (the remaining stages run);
when the wrapping is present no diagnostic is produced, and if
long-pattern normalization is requested the whole token is replaced by
the long-pattern placeholder. -/
theorem c3_long_pattern_quotation_invariant (E : Externals) (cfg : Config) (s w0 : String)
    (hstop : droppedAsStop E cfg w0 = false)
    (hsp : pyContainsChar (wordBeforeLong E cfg w0) ' ' = true)
    (hlen : 3 < (wordBeforeLong E cfg w0).length) :
    ((pyStartsWith (wordBeforeLong E cfg w0) "\"" &&
        pyEndsWith (wordBeforeLong E cfg w0) "\"") = false →
      ("Quotation Error: space inside word " ++ s) ∈ (processWord E cfg s w0).2 ∧
      (processWord E cfg s w0).1 =
        stageApos (stageDigit cfg
          (if cfg.normalize_long_pattern then LONG_PATTERN else wordBeforeLong E cfg w0))) ∧
    ((pyStartsWith (wordBeforeLong E cfg w0) "\"" &&
        pyEndsWith (wordBeforeLong E cfg w0) "\"") = true →
      (processWord E cfg s w0).2 =
        (stageSpell E (stageLemm E cfg (stageCase cfg (pyStrip w0)))).2 ∧
      (cfg.normalize_long_pattern = true →
        (processWord E cfg s w0).1 = stageApos (stageDigit cfg LONG_PATTERN))) := by
  rw [processWord_not_stopped E cfg s w0 hstop]
  rw [stageLong]
  rw [if_pos (by rw [hsp]; simpa using hlen)]
  constructor
  · intro hq
    rw [hq]
    simp
  · intro hq
    rw [hq]
    constructor
    · simp
    · intro hnl
      rw [hnl]
      simp

theorem c3_long_pattern_quotation_invariant_witness :
    (droppedAsStop EId cfgAll "\"a b\"" = false ∧
     pyContainsChar (wordBeforeLong EId cfgAll "\"a b\"") ' ' = true ∧
     3 < (wordBeforeLong EId cfgAll "\"a b\"").length) ∧
    (((pyStartsWith (wordBeforeLong EId cfgAll "\"a b\"") "\"" &&
        pyEndsWith (wordBeforeLong EId cfgAll "\"a b\"") "\"") = false →
      ("Quotation Error: space inside word " ++ "x") ∈
        (processWord EId cfgAll "x" "\"a b\"").2 ∧
      (processWord EId cfgAll "x" "\"a b\"").1 =
        stageApos (stageDigit cfgAll
          (if cfgAll.normalize_long_pattern then LONG_PATTERN
           else wordBeforeLong EId cfgAll "\"a b\""))) ∧
    ((pyStartsWith (wordBeforeLong EId cfgAll "\"a b\"") "\"" &&
        pyEndsWith (wordBeforeLong EId cfgAll "\"a b\"") "\"") = true →
      (processWord EId cfgAll "x" "\"a b\"").2 =
        (stageSpell EId (stageLemm EId cfgAll (stageCase cfgAll (pyStrip "\"a b\"")))).2 ∧
      (cfgAll.normalize_long_pattern = true →
        (processWord EId cfgAll "x" "\"a b\"").1 =
          stageApos (stageDigit cfgAll LONG_PATTERN)))) :=
  ⟨⟨by decide, by decide, by decide⟩,
   c3_long_pattern_quotation_invariant EId cfgAll "x" "\"a b\""
     (by decide) (by decide) (by decide)⟩

/-- C4: digit normalization replaces the digit runs of a token with the
numeral placeholder exactly when the flag is on and the token does not
begin with `-`; with the flag off, or for `-`-initial tokens, the token
is untouched.  Concretely `dir1` becomes `dir` followed by the
placeholder while `-1` survives unchanged through the whole pipeline. -/
theorem c4_digit_normalization (cfg : Config) (w : String) :
    (cfg.normalize_digits = true → pyStartsWith w "-" = false →
      stageDigit cfg w = digitSub w) ∧
    (pyStartsWith w "-" = true → stageDigit cfg w = w) ∧
    (cfg.normalize_digits = false → stageDigit cfg w = w) ∧
    (processWord EId cfgAll "d" "dir1").1 = ["dir" ++ NUM] ∧
    (processWord EId cfgAll "d" "-1").1 = ["-1"] := by
  refine ⟨?_, ?_, ?_, by decide, by decide⟩
  · intro h1 h2
    simp [stageDigit, h1, h2]
  · intro h
    simp [stageDigit, h]
  · intro h
    simp [stageDigit, h]

theorem c4_digit_normalization_witness :
    (cfgAll.normalize_digits = true ∧ pyStartsWith "dir1" "-" = false) ∧
    stageDigit cfgAll "dir1" = digitSub "dir1" :=
  ⟨⟨by decide, by decide⟩,
   (c4_digit_normalization cfgAll "dir1").1 (by decide) (by decide)⟩

theorem spell_log_mem (E : Externals) (cfg : Config) (s w0 entry : String)
    (h : entry ∈ (stageSpell E (stageLemm E cfg (stageCase cfg (pyStrip w0)))).2) :
    entry ∈ (processWord E cfg s w0).2 := by
  by_cases hst :
      (cfg.remove_stop_words &&
        E.isStopword (stageSpell E (stageLemm E cfg (stageCase cfg (pyStrip w0)))).1) = true
  · simp [processWord, hst, h]
  · simp only [Bool.not_eq_true] at hst
    simp [processWord, hst, h]

theorem foldl_append_pair (f g : String → List String) :
    ∀ (ws : List String) (acc : List String × List String),
    ws.foldl (fun acc w => (acc.1 ++ f w, acc.2 ++ g w)) acc =
      (acc.1 ++ (ws.map f).flatten, acc.2 ++ (ws.map g).flatten)
| [], acc => by simp
| w :: ws, acc => by
  rw [List.foldl_cons, foldl_append_pair f g ws]
  simp

theorem basic_tokenizer_logs (E : Externals) (cfg : Config) (s' : String) :
    (basic_tokenizer E cfg s').2 =
      ((E.findallQuoted (preprocessSentence E s')).map
        (fun w => (processWord E cfg (preprocessSentence E s') w).2)).flatten := by
  rw [basic_tokenizer]
  rw [foldl_append_pair (fun w => (processWord E cfg (preprocessSentence E s') w).1)
    (fun w => (processWord E cfg (preprocessSentence E s') w).2)
    (E.findallQuoted (preprocessSentence E s')) ([], [])]
  simp

/-- C7 (amended): spell correction in `basic_tokenizer` is unconditional
— no configuration flag can turn it off — and is applied exactly to the
purely alphabetic tokens; when the correction changes the token, the
before/after pair is surfaced as a log entry of the call. -/
theorem c7_spell_correction_unconditional (E : Externals) (cfg : Config)
    (s' w0 w1 : String) (hw1 : w1 = stageLemm E cfg (stageCase cfg (pyStrip w0))) :
    (pyIsAlpha w1 = false → stageSpell E w1 = (w1, [])) ∧
    (pyIsAlpha w1 = true →
      (stageSpell E w1).1 = E.correction w1 ∧
      (E.correction w1 ≠ w1 →
        ("spell correction: " ++ w1 ++ " -> " ++ E.correction w1) ∈
          (processWord E cfg s' w0).2 ∧
        (w0 ∈ E.findallQuoted (preprocessSentence E s') →
          ("spell correction: " ++ w1 ++ " -> " ++ E.correction w1) ∈
            (basic_tokenizer E cfg s').2))) := by
  subst hw1
  constructor
  · intro h
    simp [stageSpell, h]
  · intro h
    refine ⟨by simp [stageSpell, h], ?_⟩
    intro hne
    have hlog : ("spell correction: " ++ stageLemm E cfg (stageCase cfg (pyStrip w0)) ++ " -> " ++
        E.correction (stageLemm E cfg (stageCase cfg (pyStrip w0)))) ∈
        (stageSpell E (stageLemm E cfg (stageCase cfg (pyStrip w0)))).2 := by
      simp [stageSpell, h, hne]
    refine ⟨spell_log_mem E cfg s' w0 _ hlog, ?_⟩
    intro hw0
    rw [basic_tokenizer_logs]
    exact List.mem_flatten.mpr
      ⟨_, List.mem_map_of_mem _ hw0, spell_log_mem E cfg _ w0 _ hlog⟩

/-- Externals whose spell corrector always alters alphabetic tokens,
used to exhibit that no flag setting avoids the correction. -/
def EC7 : Externals :=
  ⟨fun w => w, fun w => w ++ "z", fun _ => false, fun _ => none, fun _ => true,
   fun s => s, fun s => s, fun s => s, fun s => [s]⟩

theorem c7_spell_correction_counterexample :
    ¬ ∃ cfg : Config, (processWord EC7 cfg "abc" "abc").1 = ["abc"] := by
  rintro ⟨⟨a, b, c, d, e⟩, hcfg⟩
  revert hcfg
  cases a <;> cases b <;> cases c <;> cases d <;> cases e <;> decide

theorem c7_spell_correction_unconditional_witness :
    ("abc" = stageLemm EC7 cfgAll (stageCase cfgAll (pyStrip "abc"))) ∧
    ((pyIsAlpha "abc" = false → stageSpell EC7 "abc" = ("abc", [])) ∧
     (pyIsAlpha "abc" = true →
       (stageSpell EC7 "abc").1 = EC7.correction "abc" ∧
       (EC7.correction "abc" ≠ "abc" →
         ("spell correction: " ++ "abc" ++ " -> " ++ EC7.correction "abc") ∈
           (processWord EC7 cfgAll "abc" "abc").2 ∧
         ("abc" ∈ EC7.findallQuoted (preprocessSentence EC7 "abc") →
           ("spell correction: " ++ "abc" ++ " -> " ++ EC7.correction "abc") ∈
             (basic_tokenizer EC7 cfgAll "abc").2)))) :=
  ⟨by decide, c7_spell_correction_unconditional EC7 cfgAll "abc" "abc" "abc" (by decide)⟩

/-- The characters of a token as one-character strings: the
`for c in token: chars.append(c)` iteration of `char_tokenizer`. -/
def explode (s : String) : List String := s.toList.map String.singleton

/-- Embedding of `char_tokenizer(sentence, base_tokenizer, ...)`: run the
underlying tokenizer with both normalization flags forced off (or treat
the whole sentence as one token when no tokenizer is given), emit every
character followed by the `<SPACE>` separator, and drop the final
element (`chars[:-1]`).  The two flag parameters of the source signature
are accepted and unused, as in the source. -/
def char_tokenizer (sentence : String)
    (base : Option (String → Bool → Bool → List String)) (nd nlp : Bool) :
    List String :=
  let tokens := match base with
    | some f => f sentence false false
    | none => [sentence]
  let chars := tokens.foldl (fun acc token => acc ++ explode token ++ ["<SPACE>"]) []
  chars.dropLast

theorem char_foldl_eq_flatten : ∀ (ts : List String) (acc : List String),
    ts.foldl (fun acc token => acc ++ explode token ++ ["<SPACE>"]) acc =
      acc ++ (ts.map (fun t => explode t ++ ["<SPACE>"])).flatten
| [], acc => by simp
| t :: ts, acc => by
  rw [List.foldl_cons, char_foldl_eq_flatten ts]
  simp

theorem flatten_sep_dropLast : ∀ (xs : List (List String)),
    ((xs.map (fun x => x ++ ["<SPACE>"])).flatten).dropLast =
      List.intercalate ["<SPACE>"] xs
| [] => by simp [List.intercalate, List.intersperse]
| [x] => by simp [List.intercalate, List.intersperse]
| x :: y :: tl => by
  have hne : ((y :: tl).map (fun x => x ++ ["<SPACE>"])).flatten ≠ [] := by
    have : (((y :: tl).map (fun x => x ++ ["<SPACE>"])).flatten).length ≠ 0 := by
      simp
    exact fun hc => this (by rw [hc]; rfl)
  rw [List.map_cons, List.flatten_cons,
    List.dropLast_append_of_ne_nil _ hne, flatten_sep_dropLast (y :: tl)]
  show x ++ ["<SPACE>"] ++ List.intercalate ["<SPACE>"] (y :: tl) =
    List.intercalate ["<SPACE>"] (x :: y :: tl)
  simp [List.intercalate, List.intersperse]

/-- C6: `char_tokenizer` returns the concatenated characters of the
underlying tokenizer's tokens with exactly one `<SPACE>` separator
between (not after) successive tokens — the trailing separator is
dropped — and with no underlying tokenizer the whole sentence is one
token, so the empty sentence yields the empty sequence. -/
theorem c6_char_tokenizer_separators (f : String → Bool → Bool → List String)
    (s : String) (nd nlp : Bool) :
    char_tokenizer s (some f) nd nlp =
      List.intercalate ["<SPACE>"] ((f s false false).map explode) ∧
    char_tokenizer s none nd nlp = explode s ∧
    char_tokenizer "" none nd nlp = [] := by
  have key : ∀ (ts : List String),
      (ts.foldl (fun acc token => acc ++ explode token ++ ["<SPACE>"]) []).dropLast =
        List.intercalate ["<SPACE>"] (ts.map explode) := by
    intro ts
    rw [char_foldl_eq_flatten ts []]
    have : ts.map (fun t => explode t ++ ["<SPACE>"]) =
        (ts.map explode).map (fun x => x ++ ["<SPACE>"]) := by
      simp
    rw [List.nil_append, this, flatten_sep_dropLast]
  refine ⟨key (f s false false), ?_, ?_⟩
  · have h := key [s]
    simp only [char_tokenizer]
    rw [h]
    simp [List.intercalate, List.intersperse]
  · have h := key [""]
    simp only [char_tokenizer]
    rw [h]
    simp [List.intercalate, List.intersperse, explode]

/-- Modelled from the spec: the external parser and renderer
collaborators (`normalizer.normalize_ast` and `normalizer.to_tokens`,
repo code not under `src/`), abstracted as functions per spec section 6:
the parser takes the command text and the digit / long-pattern /
quotation-recovery flags and fails with a `ParseError` on malformed
input (the `Except.error` case); the renderer takes a node and the
loose-constraints / ignore-flag-order / argument-type-only flags and
returns the token list. -/
structure Normalizer where
  normalize_ast : String → Bool → Bool → Bool → Except String Tree
  to_tokens : Tree → Bool → Bool → Bool → List String

/-- Embedding of `bash_parser(cmd, ...)` (named `bashParser` because of a
naming restriction of this development): delegate to
`normalizer.normalize_ast`. -/
def bashParser (N : Normalizer) (cmd : String) (nd nlp rq : Bool) :
    Except String Tree :=
  N.normalize_ast cmd nd nlp rq

/-- Embedding of `ast2template(node, loose_constraints, arg_type_only)`:
render with `ignore_flag_order=True` and join the tokens with single
spaces. -/
def ast2template (N : Normalizer) (node : Tree) (lc aty : Bool) : String :=
  String.intercalate " " (N.to_tokens node lc true aty)

/-- Embedding of `cmd2template(cmd, ...)`: parse with
`normalizer.normalize_ast`, then render the tree with `ast2template`;
a parser failure propagates unmodified. -/
def cmd2template (N : Normalizer) (cmd : String) (nd nlp rq aty lc : Bool) :
    Except String String :=
  match N.normalize_ast cmd nd nlp rq with
  | Except.error e => Except.error e
  | Except.ok tree => Except.ok (ast2template N tree lc aty)

/-- C5: for every command text and every flag setting, `cmd2template` is
exactly the composition of `ast2template` after `bashParser` with the
same flags — it consults no other state (the abstract collaborator `N`
is the only dependency, and the equality holds for all `N`). -/
theorem c5_cmd2template_is_render_after_parse (N : Normalizer) (cmd : String)
    (nd nlp rq aty lc : Bool) :
    cmd2template N cmd nd nlp rq aty lc =
      Except.map (fun tree => ast2template N tree lc aty) (bashParser N cmd nd nlp rq) := by
  rw [cmd2template, bashParser]
  cases N.normalize_ast cmd nd nlp rq <;> rfl

/-- A node as `pretty_print` sees it: a possibly malformed or foreign
object, each expected attribute (`kind`, `value`, `children`) present or
absent (an absent attribute raises `AttributeError` when accessed). -/
inductive PNode where
| mk : Option String → Option String → Option (List PNode) → PNode

/-- The `kind` attribute, when present. -/
def PNode.kind : PNode → Option String
| .mk k _ _ => k

/-- The `value` attribute, when present. -/
def PNode.value : PNode → Option String
| .mk _ v _ => v

/-- The `children` attribute, when present. -/
def PNode.children : PNode → Option (List PNode)
| .mk _ _ c => c

/-- Python `"    " * depth`. -/
def indentStr (d : Nat) : String := String.join (List.replicate d "    ")

/-- Python `str.upper()` (ASCII approximation). -/
def pyUpper (w : String) : String := String.mk (w.toList.map Char.toUpper)

/-- Embedding of `pretty_print(node, depth)`, output modelled as the list
of printed lines.  The `try` body first evaluates and prints the header
line (indentation, upper-cased `kind`, `value` in parentheses) and then
iterates over `node.children`; an `AttributeError` — from a missing
`kind` or `value` (raised before anything is printed) or from a missing
`children` (raised after the header is printed) — is caught, and the
handler prints a line holding only the indentation. -/
def pretty_print : PNode → Nat → List String
| PNode.mk (some k) (some v) (some cs), depth =>
  (indentStr depth ++ pyUpper k ++ "(" ++ v ++ ")") ::
    (cs.attach.map (fun x => pretty_print x.val (depth + 1))).flatten
| PNode.mk (some k) (some v) none, depth =>
  [indentStr depth ++ pyUpper k ++ "(" ++ v ++ ")", indentStr depth]
| PNode.mk _ _ _, depth => [indentStr depth]
termination_by n _ => sizeOf n
decreasing_by
  have hx := List.sizeOf_lt_of_mem x.property
  simp
  omega

theorem c8_pretty_print_counterexample :
    pretty_print (PNode.mk (some "word") (some "x") none) 0 ≠ [indentStr 0] := by
  simp [pretty_print, indentStr, pyUpper]

/-- C8 (amended): `pretty_print` emits `depth` levels of fixed
indentation, the node's kind upper-cased and its value in parentheses,
recursing into children at `depth+1`; it never fails on a malformed
node: when `kind` or `value` is missing only the indentation line is
emitted, and when only `children` is missing the already-printed header
line is followed by the indentation-only fallback line. -/
theorem c8_pretty_print_best_effort (n : PNode) (d : Nat) :
    (n.kind = none ∨ n.value = none → pretty_print n d = [indentStr d]) ∧
    (∀ k v, n.kind = some k → n.value = some v → n.children = none →
      pretty_print n d =
        [indentStr d ++ pyUpper k ++ "(" ++ v ++ ")", indentStr d]) ∧
    (∀ k v cs, n.kind = some k → n.value = some v → n.children = some cs →
      pretty_print n d =
        (indentStr d ++ pyUpper k ++ "(" ++ v ++ ")") ::
          (cs.map (fun c => pretty_print c (d + 1))).flatten) ∧
    pretty_print n d ≠ [] := by
  obtain ⟨ko, vo, co⟩ := n
  refine ⟨?_, ?_, ?_, ?_⟩
  · intro h
    match ko, vo, co, h with
    | none, _, _, _ => cases vo <;> cases co <;> simp [pretty_print]
    | some k, none, _, _ => cases co <;> simp [pretty_print]
    | some k, some v, _, h => simp [PNode.kind, PNode.value] at h
  · intro k v hk hv hc
    simp [PNode.kind, PNode.value, PNode.children] at hk hv hc
    subst hk
    subst hv
    subst hc
    simp [pretty_print]
  · intro k v cs hk hv hc
    simp [PNode.kind, PNode.value, PNode.children] at hk hv hc
    subst hk
    subst hv
    subst hc
    simp [pretty_print]
  · cases ko <;> cases vo <;> cases co <;> simp [pretty_print]

theorem c8_pretty_print_best_effort_witness :
    ((PNode.mk (some "word") (some "x") none).kind = some "word") ∧
    pretty_print (PNode.mk (some "word") (some "x") none) 0 =
      [indentStr 0 ++ pyUpper "word" ++ "(" ++ "x" ++ ")", indentStr 0] :=
  ⟨rfl,
   (c8_pretty_print_best_effort (PNode.mk (some "word") (some "x") none) 0).2.1
     "word" "x" rfl rfl rfl⟩

end Tellina
